import Mathlib

/-!
# Gas Town execution core — verification of the specification against the source

This file is a shallow embedding, in Lean 4, of the parts of the Gas Town
(`gastown`) Go repository that its natural-language specification talks about:

* the agent-loop tool catalog and per-agent filtering
  (`internal/agentloop/tools.go`),
* the MCP tool server's tool registry (`internal/mcp/transport.go`),
* the Nostr publisher, relay pool and spool-on-failure write path
  (`internal/nostr/publisher.go`, `internal/nostr/spool.go`),
* the LLM client factory (`internal/llm/factory.go`, `internal/llm/anthropic.go`),
* the retry decorator and its error classifier (`internal/llm/openai.go`),
* the context manager's token estimation and conversation truncation
  (`internal/agentloop/context.go`),
* the sandboxed file tools (`internal/agentloop/executor.go`), in particular
  `safePath` and `execFileRead`.

Conventions of the embedding:

* Go strings are byte strings; all contents considered here are ASCII, so a Go
  string is modelled as a Lean `String` (or `List Char`) and Go `len`,
  `s[:n]`, `strings.HasPrefix`, `strings.Contains` become the corresponding
  operations on the underlying character list.
* Fallible Go functions (returning `(T, error)`) are modelled with
  `Except`/`Option`; distinct error returns are distinct constructors of an
  error type.
* External effects — the symlink-resolving filesystem, the network relays, the
  signer, the spool file — are passed in explicitly as values or functions, so
  every embedded operation is a pure, executable Lean function.
-/

set_option maxRecDepth 4000

namespace Gastown

/-! ## Go string helpers

Character-list versions of the Go `strings` operations used by the embedded
code.  `goStartsWith`/`goContainsStr` are `strings.HasPrefix`/`strings.Contains`
(contiguous substring), `goToLower` is `strings.ToLower` restricted to ASCII. -/

/-- Go `strings.HasPrefix s p`. -/
def goStartsWith (s p : String) : Bool :=
  p.data.isPrefixOf s.data

/-- `goContainsChars l sub` is true iff `sub` occurs contiguously in `l`. -/
def goContainsChars : List Char → List Char → Bool
  | l, sub =>
    if sub.isPrefixOf l then true
    else match l with
      | [] => false
      | _ :: t => goContainsChars t sub

/-- Go `strings.Contains s sub` (contiguous substring). -/
def goContainsStr (s sub : String) : Bool :=
  goContainsChars s.data sub.data

/-- Go `strings.ToLower s` (ASCII). -/
def goToLower (s : String) : String :=
  ⟨s.data.map Char.toLower⟩

/-- Go `s[:n]` (byte slice; chars, under the ASCII convention). -/
def goTake (s : String) (n : Nat) : String :=
  ⟨s.data.take n⟩

/-- Go `len(s)` (bytes; chars under the ASCII convention). -/
def goLen (s : String) : Nat :=
  s.data.length

namespace Llm

/-- Tool definition (`internal/llm/client.go`, `ToolDef`).  The Go struct also
carries a human-readable `Description` and a JSON-Schema `Parameters` blob;
both are inert string payloads that none of the operations embedded in this
file ever inspects (filtering, registration and listing key on `Name` only),
so the embedding keeps just the name. -/
structure ToolDef where
  name : String
deriving DecidableEq

end Llm

namespace Agentloop

/-- The fixed tool catalog (`internal/agentloop/tools.go`, `GTTools`), in
source order. -/
def gtTools : List Llm.ToolDef :=
  [⟨"gt_prime"⟩, ⟨"gt_done"⟩, ⟨"bd_show"⟩, ⟨"bd_list"⟩, ⟨"bd_update"⟩,
   ⟨"git_diff"⟩, ⟨"git_status"⟩, ⟨"git_commit"⟩, ⟨"file_read"⟩, ⟨"file_write"⟩,
   ⟨"file_edit"⟩, ⟨"file_list"⟩, ⟨"file_search"⟩, ⟨"shell_exec"⟩,
   ⟨"gt_mail_send"⟩, ⟨"gt_mail_read"⟩]

/-- `internal/agentloop/tools.go`, `FilterTools`.  Go builds a
`map[string]bool` from `allowed` and keeps the catalog entries whose name maps
to `true`; looking a name up in that map is exactly list membership in
`allowed`, and the `len(allowed) == 0` guard covers both nil and empty
slices. -/
def filterTools (allowed : List String) : List Llm.ToolDef :=
  if allowed.length = 0 then gtTools
  else gtTools.filter (fun t => allowed.contains t.name)

/-! ## Context manager (`internal/agentloop/context.go`)

Token estimation and conversation truncation.  Two modelling notes:

* `NewContextManager` computes `maxTokens = int(float64(cw) * (1 - 0.15))`
  and `EstimateTokens` computes `int(float64(len(s)) * 0.28)` in `float64`.
  The `float64` nearest 0.28 is slightly *above* 28/100, and for every length
  below 2⁵⁰ the truncated product coincides with `⌊28·n/100⌋` (when `28n/100`
  is an integer the product lies in `[k, k + ulp)`, and otherwise its
  fractional part is at least 1/25 minus a sub-ulp error), so the embedding
  uses the exact rational forms; `Truncate` reads only `cm.maxTokens`, so
  the theorems quantify over `maxTokens` directly.
* `cm.totalTokens` is a cache written by `NeedsTruncation` and never read by
  `Truncate`'s output, so it is not part of the state here. -/

/-- One tool call of a message (`internal/llm/client.go`, `ToolCall`); `args`
is the raw JSON argument string. -/
structure ToolCall where
  id : String := ""
  name : String := ""
  args : String := ""
deriving DecidableEq

/-- A conversation turn (`internal/llm/client.go`, `Message`). -/
structure Message where
  role : String := ""
  content : String := ""
  toolCalls : List ToolCall := []
  toolCallID : String := ""
  name : String := ""
deriving DecidableEq

/-- `EstimateTokens`: `int(float64(len(s)) * 0.28)` — see the note above. -/
def estimateTokens (s : String) : Nat :=
  28 * s.data.length / 100

/-- `EstimateMessageTokens`: content estimate, +4 per-turn overhead, per tool
call the name and args estimates +10, and +10 when a tool-call id is set. -/
def estimateMessageTokens (msg : Message) : Nat :=
  (estimateTokens msg.content + 4 +
    msg.toolCalls.foldl
      (fun acc tc => acc + estimateTokens tc.name + estimateTokens tc.args + 10)
      0) +
  (if msg.toolCallID = "" then 0 else 10)

/-- `EstimateConversationTokens`: sum over the turns. -/
def estimateConversationTokens (messages : List Message) : Nat :=
  messages.foldl (fun acc m => acc + estimateMessageTokens m) 0

/-- `ContextManager.NeedsTruncation`: estimated total exceeds the usable
budget `cm.maxTokens`. -/
def needsTruncation (maxTokens : Nat) (messages : List Message) : Bool :=
  decide (maxTokens < estimateConversationTokens messages)

/-- The literal marker `trimToolResults` appends. -/
def trimMarker : String := "\n... (truncated for context window)"

/-- The per-message step of `trimToolResults` (`maxToolResult = 2000`):
truncate the content of a tool turn longer than 2000 characters and append
the marker; leave every other turn unchanged. -/
def trimMessage (m : Message) : Message :=
  if m.role = "tool" ∧ 2000 < m.content.data.length then
    { m with content := (⟨m.content.data.take 2000⟩ : String) ++ trimMarker }
  else m

/-- `ContextManager.trimToolResults`. -/
def trimToolResults (messages : List Message) : List Message :=
  messages.map trimMessage

/-- The counters `summarizeMessages` accumulates over the dropped turns
(`toolResults` is counted by the Go code but never printed). -/
structure SummaryCounts where
  toolCalls : Nat := 0
  toolResults : Nat := 0
  assistantMsgs : Nat := 0
  userMsgs : Nat := 0

/-- The counting loop of `summarizeMessages`. -/
def summaryCounts (messages : List Message) : SummaryCounts :=
  messages.foldl
    (fun c m =>
      if m.role = "assistant" then
        { c with assistantMsgs := c.assistantMsgs + 1,
                 toolCalls := c.toolCalls + m.toolCalls.length }
      else if m.role = "tool" then { c with toolResults := c.toolResults + 1 }
      else if m.role = "user" then { c with userMsgs := c.userMsgs + 1 }
      else c)
    {}

/-- The per-tool-name histogram (`toolNames` in the Go code): bump the count
for a name, inserting it on first appearance.  Go holds this in a
`map[string]int` and prints it in `range` order, which the language leaves
unspecified; the embedding fixes first-appearance order.  No theorem in this
file depends on the histogram segment of the summary. -/
def bumpCount (acc : List (String × Nat)) (n : String) : List (String × Nat) :=
  if acc.any (fun p => p.1 = n) then
    acc.map (fun p => if p.1 = n then (p.1, p.2 + 1) else p)
  else acc ++ [(n, 1)]

/-- All tool-call names of the dropped turns, with counts. -/
def toolNameCounts (messages : List Message) : List (String × Nat) :=
  messages.foldl
    (fun acc m => m.toolCalls.foldl (fun a tc => bumpCount a tc.name) acc) []

/-- Rendering of the histogram: `name(count)` entries joined by `", "`. -/
def renderCounts : List (String × Nat) → String
  | [] => ""
  | [p] => p.1 ++ "(" ++ toString p.2 ++ ")"
  | p :: q :: rest =>
    p.1 ++ "(" ++ toString p.2 ++ ")" ++ ", " ++ renderCounts (q :: rest)

/-- `ContextManager.summarizeMessages`: one line per non-zero counter. -/
def summarizeMessages (messages : List Message) : String :=
  let c := summaryCounts messages
  (if 0 < c.userMsgs then
    "- " ++ toString c.userMsgs ++ " user messages\n" else "") ++
  (if 0 < c.assistantMsgs then
    "- " ++ toString c.assistantMsgs ++ " assistant responses\n" else "") ++
  (if 0 < c.toolCalls then
    "- " ++ toString c.toolCalls ++ " tool calls: "
      ++ renderCounts (toolNameCounts messages) ++ "\n"
  else "")

/-- `minKeepEnd` in `Truncate`. -/
def minKeepEnd : Nat := 6

/-- The synthetic summary turn `Truncate` inserts for the dropped middle
`messages[startIdx:keepFrom]`. -/
def summaryMessage (startIdx keepFrom : Nat) (messages : List Message) :
    Message :=
  { role := "user",
    content := "[" ++ toString (keepFrom - startIdx)
      ++ " earlier messages summarized]\n"
      ++ summarizeMessages ((messages.drop startIdx).take (keepFrom - startIdx)) }

/-- The long-conversation branch of `Truncate` (`len > minKeepEnd+1`): keep a
leading system turn, replace the middle with one summary turn, keep the final
six turns, and trim tool results if the result still exceeds the budget. -/
def truncateMain (maxTokens : Nat) (messages : List Message) : List Message :=
  let isSys : Bool := match messages.head? with
    | some m => m.role == "system"
    | none => false
  let startIdx := if isSys then 1 else 0
  let resultHead := if isSys then messages.take 1 else []
  let keepFrom0 := messages.length - minKeepEnd
  let keepFrom := if keepFrom0 < startIdx then startIdx else keepFrom0
  let resultMid :=
    if startIdx < keepFrom then [summaryMessage startIdx keepFrom messages]
    else []
  let result := resultHead ++ resultMid ++ messages.drop keepFrom
  if needsTruncation maxTokens result then trimToolResults result else result

/-- `ContextManager.Truncate`: unchanged when within budget; for short
conversations (`len ≤ 7`) only trim tool results; otherwise the main
branch. -/
def truncate (maxTokens : Nat) (messages : List Message) : List Message :=
  if needsTruncation maxTokens messages then
    if messages.length ≤ minKeepEnd + 1 then trimToolResults messages
    else truncateMain maxTokens messages
  else messages

end Agentloop

end Gastown

namespace Gastown

/-- C10: `FilterTools` with a nil/empty allowed list returns the whole 16-tool
catalog unchanged; with a non-empty allowed list it returns exactly the
catalog entries whose names appear in the list, in catalog order (a sublist of
the catalog). -/
theorem filterTools_allowlist_semantics (allowed : List String) :
    (allowed = [] → Agentloop.filterTools allowed = Agentloop.gtTools) ∧
    (allowed ≠ [] →
      (Agentloop.filterTools allowed).Sublist Agentloop.gtTools ∧
      ∀ t, t ∈ Agentloop.filterTools allowed ↔
        t ∈ Agentloop.gtTools ∧ t.name ∈ allowed) ∧
    Agentloop.gtTools.length = 16 := by
  refine ⟨fun h => ?_, fun h => ⟨?_, fun t => ?_⟩, rfl⟩
  · simp [Agentloop.filterTools, h]
  · rw [Agentloop.filterTools, if_neg (by simpa using h)]
    exact List.filter_sublist _
  · rw [Agentloop.filterTools, if_neg (by simpa using h)]
    simp [List.mem_filter]

/-- Witness for `filterTools_allowlist_semantics` at the concrete allowed list
`["file_read"]`. -/
theorem filterTools_allowlist_semantics_witness :
    (Agentloop.filterTools ["file_read"]).Sublist Agentloop.gtTools ∧
    ∀ t, t ∈ Agentloop.filterTools ["file_read"] ↔
      t ∈ Agentloop.gtTools ∧ t.name ∈ ["file_read"] :=
  (filterTools_allowlist_semantics ["file_read"]).2.1 (by decide)

namespace Mcp

/-! ## MCP tool server registry (`internal/mcp/transport.go`)

`Server.tools` is a Go `map[string]*ToolRegistration` keyed by tool name;
`RegisterTool` assigns `s.tools[name] = ...` (inserting or overwriting), and
`handleToolsList` builds its `tools` array by `for _, t := range s.tools`.
The Go language specification leaves map iteration order unspecified (the
runtime deliberately randomizes it), so the embedding models the map's
*contents* as a name-keyed association list in insertion order — the value
content is order-independent — and models `handleToolsList` as emitting *some*
enumeration (permutation) of those contents. -/

/-- A registered tool (`ToolRegistration`).  As with `ToolDef`, the
description, schema and handler are payloads that registration and listing
never inspect, so the embedding keys on the name alone. -/
structure ToolRegistration where
  name : String
deriving DecidableEq

/-- `Server.RegisterTool`: `s.tools[name] = reg` — overwrite the entry with
this name if present, otherwise add one. -/
def registerTool (tools : List ToolRegistration) (t : ToolRegistration) :
    List ToolRegistration :=
  if tools.any (fun u => u.name = t.name) then
    tools.map (fun u => if u.name = t.name then t else u)
  else tools ++ [t]

/-- The map contents after a sequence of `RegisterTool` calls. -/
def registerAll (regs : List ToolRegistration) : List ToolRegistration :=
  regs.foldl registerTool []

/-- `Server.handleToolsList` iterates the `tools` map with `range`; Go map
iteration order is unspecified, so an output list is a possible `tools/list`
response exactly when it enumerates the map's entries in some order. -/
def toolsListCanEmit (tools : List ToolRegistration)
    (out : List ToolRegistration) : Prop :=
  out.Perm tools

/-- Names present in the registry after `registerTool` — membership grows by
the new name. -/
theorem mem_name_registerTool (tools : List ToolRegistration)
    (t : ToolRegistration) (n : String) :
    (n ∈ (registerTool tools t).map (·.name)) ↔
      n ∈ tools.map (·.name) ∨ n = t.name := by
  unfold registerTool
  by_cases h : tools.any (fun u => u.name = t.name)
  case neg =>
    rw [if_neg h]
    simp [List.mem_map, or_comm]
  case pos =>
    rw [if_pos h]
    simp only [List.map_map, List.mem_map]
    simp only [List.any_eq_true, decide_eq_true_eq] at h
    obtain ⟨u₀, hu₀, hname⟩ := h
    constructor
    · rintro ⟨u, hu, rfl⟩
      by_cases hcase : u.name = t.name
      · simp [Function.comp, hcase]
      · exact Or.inl ⟨u, hu, by simp [Function.comp, hcase]⟩
    · rintro (⟨u, hu, rfl⟩ | rfl)
      · by_cases hcase : u.name = t.name
        · exact ⟨u₀, hu₀, by simp [Function.comp, hname, hcase]⟩
        · exact ⟨u, hu, by simp [Function.comp, hcase]⟩
      · exact ⟨u₀, hu₀, by simp [Function.comp, hname]⟩

/-- The registry keeps names distinct: overwriting preserves the name
multiset, insertion appends a fresh name. -/
theorem nodup_names_registerTool (tools : List ToolRegistration)
    (t : ToolRegistration) (h : (tools.map (·.name)).Nodup) :
    ((registerTool tools t).map (·.name)).Nodup := by
  unfold registerTool
  by_cases hmem : tools.any (fun u => u.name = t.name)
  · rw [if_pos hmem]
    have : (tools.map fun u => if u.name = t.name then t else u).map (·.name) =
        tools.map (·.name) := by
      rw [List.map_map]
      apply List.map_congr_left
      intro u _
      by_cases hcase : u.name = t.name <;> simp [Function.comp, hcase]
    rw [this]; exact h
  · rw [if_neg hmem]
    rw [List.map_append, List.map_singleton]
    rw [List.nodup_append]
    refine ⟨h, List.nodup_singleton _, ?_⟩
    intro n hn
    simp only [List.any_eq_true, decide_eq_true_eq] at hmem
    simp only [List.mem_map] at hn
    obtain ⟨u, hu, rfl⟩ := hn
    simp only [List.mem_singleton]
    intro hcontra
    exact hmem ⟨u, hu, hcontra⟩

/-- Registry invariant after any registration sequence: names are distinct,
and a name is present iff some registration used it. -/
theorem registerAll_names (regs : List ToolRegistration) :
    ((registerAll regs).map (·.name)).Nodup ∧
    ∀ n, (n ∈ (registerAll regs).map (·.name)) ↔ ∃ r ∈ regs, r.name = n := by
  suffices h : ∀ acc : List ToolRegistration, (acc.map (·.name)).Nodup →
      ((regs.foldl registerTool acc).map (·.name)).Nodup ∧
      ∀ n, (n ∈ (regs.foldl registerTool acc).map (·.name)) ↔
        n ∈ acc.map (·.name) ∨ ∃ r ∈ regs, r.name = n by
    have := h [] (by simp)
    refine ⟨this.1, fun n => ?_⟩
    have h2 := this.2 n
    simp only [List.map_nil, List.not_mem_nil, false_or] at h2
    exact h2
  induction regs with
  | nil => intro acc hacc; simpa using hacc
  | cons r rs ih =>
    intro acc hacc
    have hstep := nodup_names_registerTool acc r hacc
    obtain ⟨h1, h2⟩ := ih (registerTool acc r) hstep
    rw [List.foldl_cons]
    refine ⟨h1, fun n => ?_⟩
    rw [h2 n, mem_name_registerTool]
    constructor
    · rintro ((h | h) | h)
      · exact Or.inl h
      · exact Or.inr ⟨r, by simp, h.symm⟩
      · obtain ⟨u, hu, hn⟩ := h
        exact Or.inr ⟨u, by simp [hu], hn⟩
    · rintro (h | ⟨u, hu, hn⟩)
      · exact Or.inl (Or.inl h)
      · rcases List.mem_cons.mp hu with rfl | hu'
        · exact Or.inl (Or.inr hn.symm)
        · exact Or.inr ⟨u, hu', hn⟩

end Mcp

/-- C8 (amended): every possible `tools/list` response enumerates each
registered tool name exactly once — a name appears iff some `RegisterTool`
call used it, a later registration under the same name replaces the earlier
entry, and the emitted names are pairwise distinct — but the order of the
response is a map-iteration order, which Go leaves unspecified. -/
theorem toolsList_each_registered_once (regs out : List Mcp.ToolRegistration)
    (hout : Mcp.toolsListCanEmit (Mcp.registerAll regs) out) :
    (out.map (·.name)).Nodup ∧
    ∀ n, (n ∈ out.map (·.name)) ↔ ∃ r ∈ regs, r.name = n := by
  obtain ⟨hnodup, hmem⟩ := Mcp.registerAll_names regs
  have hperm : (out.map (·.name)).Perm ((Mcp.registerAll regs).map (·.name)) :=
    hout.map _
  refine ⟨hperm.nodup_iff.mpr hnodup, fun n => ?_⟩
  rw [hperm.mem_iff, hmem n]

/-- Witness for `toolsList_each_registered_once`: registering `a` then `b`,
the reversed enumeration `[b, a]` is a possible response and lists each name
once. -/
theorem toolsList_each_registered_once_witness :
    (([⟨"b"⟩, ⟨"a"⟩] : List Mcp.ToolRegistration).map (·.name)).Nodup ∧
    ∀ n, (n ∈ ([⟨"b"⟩, ⟨"a"⟩] : List Mcp.ToolRegistration).map (·.name)) ↔
      ∃ r ∈ ([⟨"a"⟩, ⟨"b"⟩] : List Mcp.ToolRegistration), r.name = n :=
  toolsList_each_registered_once [⟨"a"⟩, ⟨"b"⟩] [⟨"b"⟩, ⟨"a"⟩]
    (show ([⟨"b"⟩, ⟨"a"⟩] : List Mcp.ToolRegistration).Perm [⟨"a"⟩, ⟨"b"⟩] from
      List.Perm.swap _ _ _)

/-- C8 (counterexample): the claim "the one registered earlier appears earlier
in the response" is false — after registering `a` then `b`, the enumeration
`[b, a]` is a possible `tools/list` response (Go map iteration order is
unspecified), and it lists `b` before the earlier-registered `a`. -/
theorem toolsList_registration_order_counterexample :
    Mcp.toolsListCanEmit (Mcp.registerAll [⟨"a"⟩, ⟨"b"⟩])
      [⟨"b"⟩, ⟨"a"⟩] ∧
    ([⟨"b"⟩, ⟨"a"⟩] : List Mcp.ToolRegistration) ≠
      Mcp.registerAll [⟨"a"⟩, ⟨"b"⟩] := by
  have hreg : Mcp.registerAll [⟨"a"⟩, ⟨"b"⟩] =
      ([⟨"a"⟩, ⟨"b"⟩] : List Mcp.ToolRegistration) := by decide
  rw [Mcp.toolsListCanEmit, hreg]
  exact ⟨List.Perm.swap _ _ _, by decide⟩

namespace Nostr

/-! ## Nostr publisher (`internal/nostr/publisher.go`, `relays.go`, `spool.go`)

The publisher's write path is `sign → pool.Publish → spool.Enqueue on
failure`.  The signer, the per-relay accept/reject outcomes and the spool
enqueue outcome are external effects, passed in as explicit values; the
embedded functions mirror the Go control flow over them. -/

/-- A Nostr event (`fiatjaf.com/nostr`, as used by the publisher): kind,
creation time, ordered tag list (list of string lists), content, plus the
identity fields the signer fills in. -/
structure Event where
  id : String := ""
  createdAt : Int := 0
  kind : Int := 0
  tags : List (List String) := []
  content : String := ""
  pubkey : String := ""
  sig : String := ""
deriving DecidableEq

/-- Signing failure (opaque). -/
inductive SignErr
  | failed
deriving DecidableEq

/-- The error cases of `RelayPool.Publish`: pool closed, no write relays
connected, or every write relay rejected the event. -/
inductive PoolErr
  | closed
  | noWriteRelays
  | allFailed
deriving DecidableEq

/-- The relay pool as `Publisher.Publish` observes it: whether it is closed,
the accept/reject outcome of each *connected* write relay for this event, and
the configured write-relay URL list (`WriteRelayURLs`). -/
structure RelayPoolState where
  closed : Bool
  writeAccepts : List Bool
  writeURLs : List String

/-- `RelayPool.Publish` (`relays.go`): error if closed; error if no write
relays are connected; otherwise fan out to every write relay, counting
successes, and fail only when `successes == 0` — i.e. succeed iff at least one
relay accepts. -/
def relayPoolPublish (p : RelayPoolState) : Except PoolErr Unit :=
  if p.closed then .error .closed
  else if p.writeAccepts.length = 0 then .error .noWriteRelays
  else if p.writeAccepts.any (fun b => b) then .ok () else .error .allFailed

/-- Errors returned by `Publisher.Publish` / `Publisher.PublishReplaceable`. -/
inductive PublishErr
  | signing (e : SignErr)
  | publishAndSpoolFailed (pe : PoolErr)
  | invalidReplaceable
deriving DecidableEq

instance : DecidableEq (Except PublishErr Unit) := fun a b =>
  match a, b with
  | .ok u, .ok v => decidable_of_iff (u = v) (by simp)
  | .error e, .error f => decidable_of_iff (e = f) (by simp)
  | .ok _, .error _ => isFalse (by simp)
  | .error _, .ok _ => isFalse (by simp)

/-- The observable outcome of one `Publisher.Publish` call: the returned
error (or success), and the `(event, targetRelays)` pair handed to
`Spool.Enqueue` when spooling succeeded. -/
structure PublishTrace where
  result : Except PublishErr Unit
  spooled : Option (Event × List String)
deriving DecidableEq

/-- `Publisher.Publish` (`publisher.go`): sign (propagating signing
failure), broadcast via the pool, and on broadcast failure hand the signed
event plus `pool.WriteRelayURLs()` to the spool; spooling success is not a
hard failure, and an error is returned only when broadcast *and* spooling
both fail.  `spoolAccepts` is the spool's enqueue outcome (false when the
hard limit is hit or the file write fails). -/
def publisherPublish (signer : Event → Except SignErr Event)
    (pool : RelayPoolState) (spoolAccepts : Bool) (event : Event) :
    PublishTrace :=
  match signer event with
  | .error e => ⟨.error (.signing e), none⟩
  | .ok signed =>
    match relayPoolPublish pool with
    | .ok _ => ⟨.ok (), none⟩
    | .error pe =>
      if spoolAccepts then ⟨.ok (), some (signed, pool.writeURLs)⟩
      else ⟨.error (.publishAndSpoolFailed pe), none⟩

/-- The Go d-tag test: `len(tag) >= 2 && tag[0] == "d"`. -/
def isDTag (t : List String) : Bool :=
  decide (2 ≤ t.length) && decide (t.head? = some "d")

/-- `PublishReplaceable`'s guard: some tag passes `isDTag`. -/
def hasDTag (ev : Event) : Bool :=
  ev.tags.any isDTag

/-- `Publisher.PublishReplaceable` (`publisher.go`): reject events without a
d-tag before signing or broadcasting, otherwise behave exactly like
`Publish`. -/
def publisherPublishReplaceable (signer : Event → Except SignErr Event)
    (pool : RelayPoolState) (spoolAccepts : Bool) (event : Event) :
    PublishTrace :=
  if hasDTag event then publisherPublish signer pool spoolAccepts event
  else ⟨.error .invalidReplaceable, none⟩

end Nostr

/-- C2: `Publisher.Publish` signs and broadcasts; it succeeds without
spooling when at least one connected write relay accepts; on total broadcast
failure — including the case of zero connected write relays — the signed
event is handed to the spool together with the write-relay URL list and
Publish still returns success; and an error is returned exactly when signing
fails or when both the broadcast and the spool enqueue fail. -/
theorem publish_spools_on_total_failure
    (signer : Nostr.Event → Except Nostr.SignErr Nostr.Event)
    (pool : Nostr.RelayPoolState) (spoolAccepts : Bool) (ev : Nostr.Event) :
    (∀ signed, signer ev = .ok signed → pool.closed = false →
      pool.writeAccepts.any (fun b => b) = true →
      Nostr.publisherPublish signer pool spoolAccepts ev = ⟨.ok (), none⟩) ∧
    (pool.closed = false → pool.writeAccepts = [] →
      Nostr.relayPoolPublish pool = .error .noWriteRelays) ∧
    (∀ signed, signer ev = .ok signed →
      ∀ pe, Nostr.relayPoolPublish pool = .error pe →
      (spoolAccepts = true →
        Nostr.publisherPublish signer pool spoolAccepts ev =
          ⟨.ok (), some (signed, pool.writeURLs)⟩) ∧
      (spoolAccepts = false →
        Nostr.publisherPublish signer pool spoolAccepts ev =
          ⟨.error (.publishAndSpoolFailed pe), none⟩)) ∧
    ((∃ e, (Nostr.publisherPublish signer pool spoolAccepts ev).result =
        .error e) ↔
      (∃ e, signer ev = .error e) ∨
      ((∃ pe, Nostr.relayPoolPublish pool = .error pe) ∧
        spoolAccepts = false)) := by
  refine ⟨?_, ?_, ?_, ?_⟩
  · intro signed hsig hclosed hany
    have hne : ¬ pool.writeAccepts.length = 0 := by
      intro h0
      rw [List.length_eq_zero] at h0
      rw [h0] at hany
      simp at hany
    have hpool : Nostr.relayPoolPublish pool = .ok () := by
      simp [Nostr.relayPoolPublish, hclosed, hne, hany]
    simp [Nostr.publisherPublish, hsig, hpool]
  · intro hclosed hempty
    simp [Nostr.relayPoolPublish, hclosed, hempty]
  · intro signed hsig pe hpe
    refine ⟨fun hs => ?_, fun hs => ?_⟩ <;>
      simp [Nostr.publisherPublish, hsig, hpe, hs]
  · unfold Nostr.publisherPublish
    cases hsig : signer ev with
    | error e =>
      exact iff_of_true ⟨.signing e, rfl⟩ (Or.inl ⟨e, rfl⟩)
    | ok signed =>
      cases hpool : Nostr.relayPoolPublish pool with
      | ok u => simp
      | error pe =>
        cases spoolAccepts <;> simp

/-- Witness for `publish_spools_on_total_failure`: with zero connected write
relays and an accepting spool, Publish returns success and the signed event is
handed to the spool with the write-relay URL list. -/
theorem publish_spools_on_total_failure_witness :
    Nostr.publisherPublish (fun e => .ok { e with sig := "s" })
      ⟨false, [], ["wss://relay.example"]⟩ true {} =
      ⟨.ok (), some ({ sig := "s" }, ["wss://relay.example"])⟩ :=
  ((publish_spools_on_total_failure (fun e => .ok { e with sig := "s" })
      ⟨false, [], ["wss://relay.example"]⟩ true {}).2.2.1
    { sig := "s" } rfl Nostr.PoolErr.noWriteRelays rfl).1 rfl

/-- `Publisher.Publish` never returns the invalid-replaceable error; that
error is produced only by `PublishReplaceable`'s d-tag guard. -/
theorem publisherPublish_ne_invalidReplaceable
    (signer : Nostr.Event → Except Nostr.SignErr Nostr.Event)
    (pool : Nostr.RelayPoolState) (spoolAccepts : Bool) (ev : Nostr.Event) :
    (Nostr.publisherPublish signer pool spoolAccepts ev).result ≠
      Except.error Nostr.PublishErr.invalidReplaceable := by
  unfold Nostr.publisherPublish
  cases signer ev with
  | error e => simp
  | ok s =>
    cases Nostr.relayPoolPublish pool with
    | ok u => simp
    | error pe => cases spoolAccepts <;> simp

/-- C6 (amended): `PublishReplaceable` rejects an event carrying no d-tag
(no tag of length ≥ 2 whose key is "d") with the invalid-replaceable error,
before signing or broadcasting (the rejection is the same for every signer,
pool and spool); every event it does not reject carries **at least one** —
not exactly one — d-tag. -/
theorem publishReplaceable_requires_dtag
    (signer : Nostr.Event → Except Nostr.SignErr Nostr.Event)
    (pool : Nostr.RelayPoolState) (spoolAccepts : Bool) (ev : Nostr.Event) :
    (Nostr.hasDTag ev = false →
      Nostr.publisherPublishReplaceable signer pool spoolAccepts ev =
        ⟨.error .invalidReplaceable, none⟩) ∧
    ((Nostr.publisherPublishReplaceable signer pool spoolAccepts ev).result ≠
        .error .invalidReplaceable ↔ Nostr.hasDTag ev = true) ∧
    (Nostr.hasDTag ev = true → 1 ≤ ev.tags.countP Nostr.isDTag) := by
  refine ⟨fun h => ?_, ?_, fun h => ?_⟩
  · simp [Nostr.publisherPublishReplaceable, h]
  · by_cases h : Nostr.hasDTag ev
    · rw [Nostr.publisherPublishReplaceable, if_pos h]
      exact iff_of_true
        (publisherPublish_ne_invalidReplaceable signer pool spoolAccepts ev) h
    · rw [Nostr.publisherPublishReplaceable,
        if_neg h]
      simp only [ne_eq, not_true_eq_false, false_iff]
      exact fun hc => h hc
  · rw [Nostr.hasDTag, List.any_eq_true] at h
    obtain ⟨t, ht, hd⟩ := h
    exact Nat.succ_le_of_lt (List.countP_pos_iff.mpr ⟨t, ht, hd⟩)

/-- Witness for `publishReplaceable_requires_dtag`: an event whose only tag is
`["e", "x"]` is rejected with the invalid-replaceable error. -/
theorem publishReplaceable_requires_dtag_witness :
    Nostr.publisherPublishReplaceable (fun e => .ok e)
      ⟨false, [true], ["wss://r"]⟩ true { tags := [["e", "x"]] } =
      ⟨.error .invalidReplaceable, none⟩ :=
  (publishReplaceable_requires_dtag (fun e => .ok e)
    ⟨false, [true], ["wss://r"]⟩ true { tags := [["e", "x"]] }).1 rfl

/-- C6 (counterexample): the claim that every event published through
`PublishReplaceable` carries **exactly one** d-tag is false — an event with
two d-tags passes the guard and is broadcast successfully. -/
theorem publishReplaceable_two_dtags_published :
    (Nostr.publisherPublishReplaceable (fun e => .ok e)
        ⟨false, [true], ["wss://r"]⟩ true
        { tags := [["d", "a"], ["d", "b"]] }).result = .ok () ∧
    ({ tags := [["d", "a"], ["d", "b"]] } : Nostr.Event).tags.countP
        Nostr.isDTag = 2 := by
  exact ⟨rfl, rfl⟩

namespace Llm

/-! ## LLM client factory (`internal/llm/factory.go`, `anthropic.go`,
`openai.go`) and retry decorator (`openai.go`). -/

/-- `internal/config`, `APIConfig` — the fields the factory and the two
constructors read (JSON keys `api_type`, `base_url`, `model`, `api_key`,
`timeout_seconds`, `max_tokens`, ...); extra request headers are inert and
omitted. -/
structure APIConfig where
  apiType : String := ""
  baseURL : String := ""
  model : String := ""
  apiKey : String := ""
  timeoutSeconds : Int := 0
  maxTokens : Int := 0
  contextWindow : Int := 0
  supportsTools : Bool := false
  supportsVision : Bool := false

/-- `AnthropicClient` — the configuration-derived fields set by
`NewAnthropicClient` (the HTTP client carries `timeoutSeconds`). -/
structure AnthropicClient where
  baseURL : String
  apiKey : String
  model : String
  maxTokens : Int
  timeoutSeconds : Int
deriving DecidableEq

/-- `OpenAIClient` — the configuration-derived fields set by
`NewOpenAIClient`. -/
structure OpenAIClient where
  baseURL : String
  apiKey : String
  model : String
  timeoutSeconds : Int
deriving DecidableEq

/-- `anthropicDefaultMaxTok` (`anthropic.go`). -/
def anthropicDefaultMaxTok : Int := 4096

/-- `NewAnthropicClient` (`anthropic.go`): default the base URL to the
canonical Anthropic host when absent, the timeout to 300 s, and `max_tokens`
to 4096; never fails. -/
def newAnthropicClient (cfg : APIConfig) (apiKey : String) : AnthropicClient :=
  { baseURL := if cfg.baseURL = "" then "https://api.anthropic.com"
               else cfg.baseURL
    apiKey := apiKey
    model := cfg.model
    maxTokens := if cfg.maxTokens = 0 then anthropicDefaultMaxTok
                 else cfg.maxTokens
    timeoutSeconds := if cfg.timeoutSeconds > 0 then cfg.timeoutSeconds
                      else 300 }

/-- `NewOpenAIClient` (`openai.go`): default the timeout to 300 s; never
fails. -/
def newOpenAIClient (cfg : APIConfig) (apiKey : String) : OpenAIClient :=
  { baseURL := cfg.baseURL
    apiKey := apiKey
    model := cfg.model
    timeoutSeconds := if cfg.timeoutSeconds > 0 then cfg.timeoutSeconds
                      else 300 }

/-- The two client dialects `NewClient` can construct. -/
inductive Client
  | openai (c : OpenAIClient)
  | anthropic (c : AnthropicClient)
deriving DecidableEq

/-- The error returns of `NewClient` (`factory.go`). -/
inductive ConfigErr
  | nilConfig
  | baseURLRequired
  | modelRequired
  | unsupportedAPIType (t : String)
deriving DecidableEq

/-- `NewClient` (`factory.go`): nil config is an error; **`base_url` is
required before dispatching on `api_type`** (this is the line C7 is about);
`model` is required; an `api_key` of the form `$NAME` is resolved from the
environment (`env`); `api_type` defaults to `"openai"` and dispatches to the
matching constructor. -/
def newClient (env : String → String) (cfg : Option APIConfig) :
    Except ConfigErr Client :=
  match cfg with
  | none => .error .nilConfig
  | some cfg =>
    if cfg.baseURL = "" then .error .baseURLRequired
    else if cfg.model = "" then .error .modelRequired
    else
      let apiKey := if Gastown.goStartsWith cfg.apiKey "$" then
                      env ⟨cfg.apiKey.data.drop 1⟩
                    else cfg.apiKey
      let apiType := if cfg.apiType = "" then "openai" else cfg.apiType
      if apiType = "openai" then .ok (.openai (newOpenAIClient cfg apiKey))
      else if apiType = "anthropic" then
        .ok (.anthropic (newAnthropicClient cfg apiKey))
      else .error (.unsupportedAPIType apiType)

/-! ### Retry decorator (`openai.go`, `retryingClient.Chat` /
`isRetryableLLMError`)

A chat error is either one of the two context sentinels (which
`errors.Is(err, context.Canceled / context.DeadlineExceeded)` detects) or an
ordinary error with a message.  The wrapped client is modelled as a function
from the 0-based attempt number to that call's outcome; the embedded loop
returns the final outcome together with the number of calls made (backoff
sleeping has no observable effect on the outcome; the loop's own context is
never cancelled here — cancellation surfaces as the sentinel errors). -/

/-- Chat-call errors as the retry classifier distinguishes them. -/
inductive LLMError
  | ctxCanceled
  | ctxDeadline
  | msg (s : String)
deriving DecidableEq

/-- A chat response (contents irrelevant to retry behavior). -/
structure ChatResponse where
  content : String
deriving DecidableEq

instance {ε α : Type} [DecidableEq ε] [DecidableEq α] :
    DecidableEq (Except ε α) := fun a b =>
  match a, b with
  | .ok u, .ok v => decidable_of_iff (u = v) (by simp)
  | .error e, .error f => decidable_of_iff (e = f) (by simp)
  | .ok _, .error _ => isFalse (by simp)
  | .error _, .ok _ => isFalse (by simp)

/-- `isRetryableLLMError` (`openai.go`): context cancellation/deadline is
never retried; otherwise lower-case the message and treat it as
non-retryable when it contains `"api error 4"`, `"status 4"`, or one of
`" 400"`, `" 401"`, `" 403"`, `" 404"` (each with a leading space); anything
else is retryable. -/
def isRetryableLLMError : LLMError → Bool
  | .ctxCanceled => false
  | .ctxDeadline => false
  | .msg s =>
    let m := Gastown.goToLower s
    if Gastown.goContainsStr m "api error 4" then false
    else if Gastown.goContainsStr m "status 4" then false
    else if Gastown.goContainsStr m " 400" || Gastown.goContainsStr m " 401"
        || Gastown.goContainsStr m " 403" || Gastown.goContainsStr m " 404" then
      false
    else true

/-- The loop body of `retryingClient.Chat`: `attempt` is the 0-based index of
the call about to be made, `attemptsLeft = MaxRetries − attempt` the number of
further attempts allowed after it.  Mirrors: call; return on success; return
immediately on a non-retryable error; return the last error when attempts are
exhausted; otherwise sleep (unobservable) and loop. -/
def retryChatAux (client : Nat → Except LLMError ChatResponse) :
    Nat → Nat → Except LLMError ChatResponse × Nat
  | attemptsLeft, attempt =>
    match client attempt with
    | .ok r => (.ok r, attempt + 1)
    | .error e =>
      if isRetryableLLMError e then
        match attemptsLeft with
        | 0 => (.error e, attempt + 1)
        | n + 1 => retryChatAux client n (attempt + 1)
      else (.error e, attempt + 1)

/-- `retryingClient.Chat` with `cfg.MaxRetries = maxRetries`: run the loop
from attempt 0; the second component is the number of calls made to the
wrapped client. -/
def retryChat (client : Nat → Except LLMError ChatResponse)
    (maxRetries : Nat) : Except LLMError ChatResponse × Nat :=
  retryChatAux client maxRetries 0

/-- The *claim's* classification of never-retried errors, following the
spec's words: context cancellation/deadline, or a message that "contains
400/401/403/404 or the prefix `api error 4`" (read case-insensitively, as the
spec's own examples use upper-case messages).  This definition follows the
specification, not the source; it exists to be compared against
`isRetryableLLMError`. -/
def claimNeverRetried : LLMError → Bool
  | .ctxCanceled => true
  | .ctxDeadline => true
  | .msg s =>
    let m := Gastown.goToLower s
    Gastown.goContainsStr m "400" || Gastown.goContainsStr m "401"
      || Gastown.goContainsStr m "403" || Gastown.goContainsStr m "404"
      || Gastown.goStartsWith m "api error 4"

/-- All-failures run of the loop: if every attempt in reach errors with a
retryable error, the loop uses all attempts and returns the last error. -/
theorem retryChatAux_all_retryable (client : Nat → Except LLMError ChatResponse)
    (e : Nat → LLMError) :
    ∀ attemptsLeft attempt,
      (∀ i, attempt ≤ i → i ≤ attempt + attemptsLeft →
        client i = .error (e i)) →
      (∀ i, attempt ≤ i → i ≤ attempt + attemptsLeft →
        isRetryableLLMError (e i) = true) →
      retryChatAux client attemptsLeft attempt =
        (.error (e (attempt + attemptsLeft)), attempt + attemptsLeft + 1) := by
  intro attemptsLeft
  induction attemptsLeft with
  | zero =>
    intro attempt hcl hre
    rw [retryChatAux, hcl attempt le_rfl (by omega)]
    dsimp only
    rw [hre attempt le_rfl (by omega)]
    simp
  | succ n ih =>
    intro attempt hcl hre
    rw [retryChatAux, hcl attempt le_rfl (by omega)]
    dsimp only
    rw [hre attempt le_rfl (by omega), if_pos rfl]
    have hrec := ih (attempt + 1) (fun i h1 h2 => hcl i (by omega) (by omega))
      (fun i h1 h2 => hre i (by omega) (by omega))
    rw [hrec]
    have harith : attempt + 1 + n = attempt + (n + 1) := by omega
    rw [harith]

end Llm

/-- C7: evaluation of the factory at the failing configuration — an
"anthropic" config with no `base_url`.  `NewClient` rejects it with the
base-url-required error for every environment, even though
`NewAnthropicClient` itself (documented in the repository as the place the
default applies) defaults the base URL to the canonical Anthropic host. -/
theorem newClient_anthropic_rejects_missing_baseURL :
    (∀ env, Llm.newClient env
        (some { apiType := "anthropic", model := "claude-sonnet-4-20250514",
                apiKey := "k" }) = .error .baseURLRequired) ∧
    (Llm.newAnthropicClient
        { apiType := "anthropic", model := "claude-sonnet-4-20250514",
          apiKey := "k" } "k").baseURL = "https://api.anthropic.com" :=
  ⟨fun _ => rfl, rfl⟩

/-- C3 (amended): under the retry decorator, an error is returned immediately
(after a single call) exactly when `isRetryableLLMError` classifies it
non-retryable — context cancellation/deadline, or a lower-cased message
containing "api error 4", "status 4", or a space-prefixed 400/401/403/404 —
while retryable errors are retried up to the configured maximum; a stub
client failing once with "API error 500: ..." then succeeding returns the
success after 2 calls under retry(max=2), and "API error 401: ..." is
returned after 1 call. -/
theorem retryChat_classifier_semantics :
    (∀ client maxRetries e, client 0 = .error e →
      Llm.isRetryableLLMError e = false →
      Llm.retryChat client maxRetries = (.error e, 1)) ∧
    (∀ client maxRetries (e : Nat → Llm.LLMError),
      (∀ i, i ≤ maxRetries → client i = .error (e i)) →
      (∀ i, i ≤ maxRetries → Llm.isRetryableLLMError (e i) = true) →
      Llm.retryChat client maxRetries = (.error (e maxRetries), maxRetries + 1)) ∧
    (∀ r : Llm.ChatResponse,
      Llm.retryChat
        (fun n => if n = 0 then .error (.msg "API error 500: upstream blew up")
                  else .ok r) 2 = (.ok r, 2)) ∧
    Llm.retryChat (fun _ => .error (.msg "API error 401: bad key")) 2 =
      (.error (.msg "API error 401: bad key"), 1) := by
  refine ⟨?_, ?_, fun r => rfl, rfl⟩
  · intro client maxRetries e hcl hnr
    rw [Llm.retryChat, Llm.retryChatAux, hcl]
    dsimp only
    rw [hnr]
    simp
  · intro client maxRetries e hcl hre
    have hrun := Llm.retryChatAux_all_retryable client e maxRetries 0
      (fun i h1 h2 => hcl i (by omega)) (fun i h1 h2 => hre i (by omega))
    rw [Llm.retryChat, hrun]
    have harith : 0 + maxRetries = maxRetries := by omega
    rw [harith]

/-- Witness for `retryChat_classifier_semantics`: the 401-shaped stub error is
returned after exactly one call under retry(max=5). -/
theorem retryChat_classifier_semantics_witness :
    Llm.retryChat (fun _ => .error (.msg "API error 401: bad key")) 5 =
      (.error (.msg "API error 401: bad key"), 1) :=
  retryChat_classifier_semantics.1
    (fun _ => .error (.msg "API error 401: bad key")) 5
    (.msg "API error 401: bad key") rfl (by decide)

/-- C3 (counterexample): the claim's classification is wrong about the code —
the message "upstream status 499" is not 4xx-shaped by the claim's test
(it contains none of 400/401/403/404 and does not start with "api error 4"),
so the claim says it is retried up to the maximum (3 calls at max=2); but the
code's classifier matches its "status 4" scan, so the error is returned after
a single call. -/
theorem retryChat_classifier_counterexample :
    Llm.claimNeverRetried (.msg "upstream status 499") = false ∧
    Llm.retryChat (fun _ => .error (.msg "upstream status 499")) 2 =
      (.error (.msg "upstream status 499"), 1) ∧
    Llm.retryChat (fun _ => .error (.msg "upstream status 499")) 2 ≠
      (.error (.msg "upstream status 499"), 2 + 1) := by
  refine ⟨by decide, rfl, ?_⟩
  intro h
  have h1 : Llm.retryChat (fun _ => .error (.msg "upstream status 499")) 2 =
      (.error (.msg "upstream status 499"), 1) := rfl
  rw [h1] at h
  exact absurd (congrArg Prod.snd h) (by decide)

/-- A conversation within budget is returned by `Truncate` unchanged. -/
theorem truncate_eq_of_not_needs (maxTokens : Nat) (l : List Agentloop.Message)
    (h : Agentloop.needsTruncation maxTokens l = false) :
    Agentloop.truncate maxTokens l = l := by
  unfold Agentloop.truncate
  rw [h]
  simp

/-- C4 (amended): truncation is idempotent whenever the first truncation's
result no longer needs truncation (in particular whenever it fits within the
usable budget); when the result is still over budget a second truncation can
rewrite the synthetic summary turn, so unconditional idempotence fails (see
the counterexample). -/
theorem truncate_idempotent_of_fits (maxTokens : Nat)
    (messages : List Agentloop.Message)
    (h : Agentloop.needsTruncation maxTokens
      (Agentloop.truncate maxTokens messages) = false) :
    Agentloop.truncate maxTokens (Agentloop.truncate maxTokens messages) =
      Agentloop.truncate maxTokens messages :=
  truncate_eq_of_not_needs maxTokens (Agentloop.truncate maxTokens messages) h

/-- Witness for `truncate_idempotent_of_fits` at a small conversation and
budget 100. -/
theorem truncate_idempotent_of_fits_witness :
    Agentloop.truncate 100
        (Agentloop.truncate 100 [⟨"user", "hi", [], "", ""⟩]) =
      Agentloop.truncate 100 [⟨"user", "hi", [], "", ""⟩] :=
  truncate_idempotent_of_fits 100 [⟨"user", "hi", [], "", ""⟩] (by decide)

/-- C4 (counterexample): `Truncate` is not idempotent.  With budget 0 and a
nine-turn conversation headed by a system turn, the first truncation inserts
the summary "[2 earlier messages summarized]..."; the result is still over
budget, and truncating it again replaces that summary with "[1 earlier
messages summarized]...", so `T(T(C)) ≠ T(C)`. -/
theorem truncate_not_idempotent :
    Agentloop.truncate 0 (Agentloop.truncate 0
        [⟨"system", "", [], "", ""⟩, ⟨"user", "", [], "", ""⟩,
         ⟨"user", "", [], "", ""⟩, ⟨"user", "", [], "", ""⟩,
         ⟨"assistant", "", [], "", ""⟩, ⟨"user", "", [], "", ""⟩,
         ⟨"assistant", "", [], "", ""⟩, ⟨"user", "", [], "", ""⟩,
         ⟨"assistant", "", [], "", ""⟩]) ≠
      Agentloop.truncate 0
        [⟨"system", "", [], "", ""⟩, ⟨"user", "", [], "", ""⟩,
         ⟨"user", "", [], "", ""⟩, ⟨"user", "", [], "", ""⟩,
         ⟨"assistant", "", [], "", ""⟩, ⟨"user", "", [], "", ""⟩,
         ⟨"assistant", "", [], "", ""⟩, ⟨"user", "", [], "", ""⟩,
         ⟨"assistant", "", [], "", ""⟩] := by
  decide

/-- Tool-result trimming never changes a turn's role. -/
theorem trimMessage_role (m : Agentloop.Message) :
    (Agentloop.trimMessage m).role = m.role := by
  unfold Agentloop.trimMessage
  split <;> rfl

/-- Pointwise "unchanged or trimmed" holds reflexively. -/
theorem forall2_trimEq_refl (l : List Agentloop.Message) :
    List.Forall₂ (fun a b => a = b ∨ a = Agentloop.trimMessage b) l l := by
  induction l with
  | nil => exact .nil
  | cons h t ih => exact .cons (Or.inl rfl) ih

/-- Pointwise "unchanged or trimmed" holds between a trimmed list and the
original. -/
theorem forall2_trimEq_trim (l : List Agentloop.Message) :
    List.Forall₂ (fun a b => a = b ∨ a = Agentloop.trimMessage b)
      (Agentloop.trimToolResults l) l := by
  induction l with
  | nil => exact .nil
  | cons h t ih => exact .cons (Or.inr rfl) ih

/-- Shape of the long-conversation branch: the output is a short prelude
(leading system turn, if present, plus the synthetic summary turn) followed by
the final six turns of the input, the whole possibly tool-trimmed. -/
theorem truncateMain_structure (maxTokens : Nat)
    (messages : List Agentloop.Message) (h8 : 8 ≤ messages.length) :
    ∃ pre : List Agentloop.Message,
      (Agentloop.truncateMain maxTokens messages =
          pre ++ messages.drop (messages.length - 6) ∨
        Agentloop.truncateMain maxTokens messages =
          Agentloop.trimToolResults
            (pre ++ messages.drop (messages.length - 6))) ∧
      1 ≤ pre.length ∧ pre.length ≤ 2 ∧
      (∀ m0, messages.head? = some m0 → m0.role = "system" →
        pre.head? = some m0 ∧ pre.length = 2) := by
  cases messages with
  | nil => simp at h8
  | cons m0 rest =>
    rw [List.length_cons] at h8
    by_cases hsys : m0.role = "system"
    · refine ⟨[m0, Agentloop.summaryMessage 1 ((m0 :: rest).length - 6)
        (m0 :: rest)], ?_, by simp, by simp, ?_⟩
      · have hform : Agentloop.truncateMain maxTokens (m0 :: rest) =
            if Agentloop.needsTruncation maxTokens
                ([m0, Agentloop.summaryMessage 1 ((m0 :: rest).length - 6)
                  (m0 :: rest)] ++ (m0 :: rest).drop ((m0 :: rest).length - 6))
            then Agentloop.trimToolResults
              ([m0, Agentloop.summaryMessage 1 ((m0 :: rest).length - 6)
                (m0 :: rest)] ++ (m0 :: rest).drop ((m0 :: rest).length - 6))
            else [m0, Agentloop.summaryMessage 1 ((m0 :: rest).length - 6)
                (m0 :: rest)] ++
              (m0 :: rest).drop ((m0 :: rest).length - 6) := by
          have hb : (m0.role == "system") = true := beq_iff_eq.mpr hsys
          have hk1 : ¬ (rest.length - 5 = 0) := by omega
          have hk2 : 1 < rest.length - 5 := by omega
          unfold Agentloop.truncateMain
          simp [hb, hk1, hk2, Agentloop.minKeepEnd, List.append_assoc]
        rw [hform]
        split
        · exact Or.inr rfl
        · exact Or.inl rfl
      · intro m hm hr
        rw [List.head?_cons, Option.some.injEq] at hm
        subst hm
        exact ⟨rfl, rfl⟩
    · refine ⟨[Agentloop.summaryMessage 0 ((m0 :: rest).length - 6)
        (m0 :: rest)], ?_, by simp, by simp, ?_⟩
      · have hform : Agentloop.truncateMain maxTokens (m0 :: rest) =
            if Agentloop.needsTruncation maxTokens
                ([Agentloop.summaryMessage 0 ((m0 :: rest).length - 6)
                  (m0 :: rest)] ++ (m0 :: rest).drop ((m0 :: rest).length - 6))
            then Agentloop.trimToolResults
              ([Agentloop.summaryMessage 0 ((m0 :: rest).length - 6)
                (m0 :: rest)] ++ (m0 :: rest).drop ((m0 :: rest).length - 6))
            else [Agentloop.summaryMessage 0 ((m0 :: rest).length - 6)
                (m0 :: rest)] ++
              (m0 :: rest).drop ((m0 :: rest).length - 6) := by
          have hb : (m0.role == "system") = false :=
            beq_eq_false_iff_ne.mpr hsys
          have hk2 : 5 < rest.length := by omega
          unfold Agentloop.truncateMain
          simp [hb, hk2, Agentloop.minKeepEnd, List.append_assoc]
        rw [hform]
        split
        · exact Or.inr rfl
        · exact Or.inl rfl
      · intro m hm hr
        rw [List.head?_cons, Option.some.injEq] at hm
        subst hm
        exact absurd hr hsys

/-- C5 (amended): every truncation `T(C)` satisfies `len(T(C)) ≤ len(C)`; if
`C`'s first turn has role system then so does `T(C)`'s; and each of the final
`min(6, len(C))` turns of `T(C)` is the corresponding final turn of `C`,
either unchanged or — when it is a tool turn whose content exceeds 2000
characters and the result is still over budget — with its content trimmed to
2000 characters plus the trim marker (exact equality of the final turns fails
in general, see the counterexample). -/
theorem truncate_shape (maxTokens : Nat) (messages : List Agentloop.Message) :
    (Agentloop.truncate maxTokens messages).length ≤ messages.length ∧
    (∀ m0, messages.head? = some m0 → m0.role = "system" →
      ∃ m1, (Agentloop.truncate maxTokens messages).head? = some m1 ∧
        m1.role = "system") ∧
    List.Forall₂ (fun a b => a = b ∨ a = Agentloop.trimMessage b)
      ((Agentloop.truncate maxTokens messages).drop
        ((Agentloop.truncate maxTokens messages).length -
          min 6 messages.length))
      (messages.drop (messages.length - min 6 messages.length)) := by
  cases hn : Agentloop.needsTruncation maxTokens messages with
  | false =>
    have ht : Agentloop.truncate maxTokens messages = messages :=
      truncate_eq_of_not_needs _ _ hn
    rw [ht]
    exact ⟨le_refl _, fun m0 h hr => ⟨m0, h, hr⟩, forall2_trimEq_refl _⟩
  | true =>
    by_cases hlen : messages.length ≤ 7
    · have ht : Agentloop.truncate maxTokens messages =
          Agentloop.trimToolResults messages := by
        simp [Agentloop.truncate, hn, Agentloop.minKeepEnd, hlen]
      rw [ht]
      unfold Agentloop.trimToolResults
      refine ⟨by simp, fun m0 h hr => ?_, ?_⟩
      · refine ⟨Agentloop.trimMessage m0, ?_, ?_⟩
        · rw [List.head?_map, h]
          rfl
        · rw [trimMessage_role]
          exact hr
      · rw [List.length_map, ← List.map_drop]
        exact forall2_trimEq_trim _
    · have h8 : 8 ≤ messages.length := by omega
      have ht : Agentloop.truncate maxTokens messages =
          Agentloop.truncateMain maxTokens messages := by
        simp [Agentloop.truncate, hn, Agentloop.minKeepEnd, hlen]
      obtain ⟨pre, hdisj, hp1, hp2, hpsys⟩ :=
        truncateMain_structure maxTokens messages h8
      have hmin : min 6 messages.length = 6 := Nat.min_eq_left (by omega)
      have hsuff : (messages.drop (messages.length - 6)).length = 6 := by
        rw [List.length_drop]
        omega
      rw [ht, hmin]
      rcases hdisj with heq | heq
      · rw [heq]
        have hlenT : (pre ++ messages.drop (messages.length - 6)).length =
            pre.length + 6 := by
          rw [List.length_append, hsuff]
        refine ⟨?_, ?_, ?_⟩
        · rw [hlenT]
          omega
        · intro m0 h hr
          obtain ⟨hph, hpl⟩ := hpsys m0 h hr
          cases pre with
          | nil => exact absurd hp1 (by simp)
          | cons p ps =>
            rw [List.head?_cons, Option.some.injEq] at hph
            subst hph
            exact ⟨p, rfl, hr⟩
        · rw [hlenT]
          have h6 : pre.length + 6 - 6 = pre.length := by omega
          rw [h6, List.drop_left]
          exact forall2_trimEq_refl _
      · rw [heq]
        unfold Agentloop.trimToolResults
        have hlenT : ((pre ++ messages.drop (messages.length - 6)).map
            Agentloop.trimMessage).length = pre.length + 6 := by
          rw [List.length_map, List.length_append, hsuff]
        refine ⟨?_, ?_, ?_⟩
        · rw [hlenT]
          omega
        · intro m0 h hr
          obtain ⟨hph, hpl⟩ := hpsys m0 h hr
          cases pre with
          | nil => exact absurd hp1 (by simp)
          | cons p ps =>
            rw [List.head?_cons, Option.some.injEq] at hph
            subst hph
            refine ⟨Agentloop.trimMessage p, rfl, ?_⟩
            rw [trimMessage_role]
            exact hr
        · rw [hlenT]
          have h6 : pre.length + 6 - 6 = pre.length := by omega
          rw [h6, ← List.map_drop, List.drop_left]
          exact forall2_trimEq_trim _

/-- Witness for `truncate_shape` at a concrete two-turn conversation headed by
a system turn, budget 0. -/
theorem truncate_shape_witness :
    ∃ m1, (Agentloop.truncate 0
        [⟨"system", "p", [], "", ""⟩, ⟨"user", "q", [], "", ""⟩]).head? =
      some m1 ∧ m1.role = "system" :=
  (truncate_shape 0
      [⟨"system", "p", [], "", ""⟩, ⟨"user", "q", [], "", ""⟩]).2.1
    ⟨"system", "p", [], "", ""⟩ rfl rfl

/-- Any non-empty conversation has a positive token estimate (each turn
contributes its fixed overhead of 4). -/
theorem estimateConversationTokens_pos (m : Agentloop.Message)
    (ms : List Agentloop.Message) :
    0 < Agentloop.estimateConversationTokens (m :: ms) := by
  have hfold : ∀ (l : List Agentloop.Message) (acc : Nat),
      acc ≤ l.foldl (fun a mm => a + Agentloop.estimateMessageTokens mm) acc := by
    intro l
    induction l with
    | nil => intro acc; exact le_refl _
    | cons x xs ih =>
      intro acc
      calc acc ≤ acc + Agentloop.estimateMessageTokens x := Nat.le_add_right _ _
        _ ≤ _ := ih _
  have h4 : 4 ≤ Agentloop.estimateMessageTokens m := by
    unfold Agentloop.estimateMessageTokens
    split <;> omega
  have hstep : 0 < 0 + Agentloop.estimateMessageTokens m := by omega
  unfold Agentloop.estimateConversationTokens
  rw [List.foldl_cons]
  exact lt_of_lt_of_le hstep (hfold ms _)

/-- A two-turn conversation whose tool turn has a 2001-character content. -/
def c5Conversation : List Agentloop.Message :=
  [⟨"user", "go", [], "", ""⟩,
   ⟨"tool", ⟨List.replicate 2001 'a'⟩, [], "call-1", "file_read"⟩]

/-- C5 (counterexample): the final `min(6, len(C))` turns of `T(C)` are *not*
always equal to those of `C` — with budget 0, a two-turn conversation ending
in a tool turn of 2001 characters is tool-trimmed, so its final two turns
(the whole conversation) change. -/
theorem truncate_final_turns_counterexample :
    (Agentloop.truncate 0 c5Conversation).drop
        ((Agentloop.truncate 0 c5Conversation).length -
          min 6 c5Conversation.length) ≠
      c5Conversation.drop
        (c5Conversation.length - min 6 c5Conversation.length) := by
  have hlen2001 : (⟨List.replicate 2001 'a'⟩ : String).data.length = 2001 := by
    show (List.replicate 2001 'a').length = 2001
    rw [List.length_replicate]
  have hneeds : Agentloop.needsTruncation 0 c5Conversation = true :=
    decide_eq_true (estimateConversationTokens_pos _ _)
  have hT : Agentloop.truncate 0 c5Conversation =
      [⟨"user", "go", [], "", ""⟩,
       ⟨"tool", (⟨(List.replicate 2001 'a').take 2000⟩ : String) ++
         Agentloop.trimMarker, [], "call-1", "file_read"⟩] := by
    unfold Agentloop.truncate
    rw [hneeds, if_pos rfl,
      if_pos (show c5Conversation.length ≤ Agentloop.minKeepEnd + 1 by
        norm_num [c5Conversation, Agentloop.minKeepEnd])]
    unfold Agentloop.trimToolResults c5Conversation
    simp only [List.map_cons, List.map_nil]
    have hm1 : Agentloop.trimMessage ⟨"user", "go", [], "", ""⟩ =
        ⟨"user", "go", [], "", ""⟩ := by
      unfold Agentloop.trimMessage
      rw [if_neg]
      intro hc
      exact absurd hc.1 (by decide)
    have hm2 : Agentloop.trimMessage
        ⟨"tool", ⟨List.replicate 2001 'a'⟩, [], "call-1", "file_read"⟩ =
        ⟨"tool", (⟨(List.replicate 2001 'a').take 2000⟩ : String) ++
          Agentloop.trimMarker, [], "call-1", "file_read"⟩ := by
      unfold Agentloop.trimMessage
      rw [if_pos ⟨rfl, by rw [hlen2001]; omega⟩]
    rw [hm1, hm2]
  have e1 : (Agentloop.truncate 0 c5Conversation).drop
      ((Agentloop.truncate 0 c5Conversation).length -
        min 6 c5Conversation.length) = Agentloop.truncate 0 c5Conversation := by
    rw [hT]
    rfl
  have e2 : c5Conversation.drop
      (c5Conversation.length - min 6 c5Conversation.length) =
      c5Conversation := rfl
  rw [e1, e2, hT]
  intro h
  unfold c5Conversation at h
  injection h with h1 hrest
  injection hrest with h2 _
  have hcontent := congrArg Agentloop.Message.content h2
  have hlen := congrArg (fun s => s.data.length) hcontent
  have hmark : Agentloop.trimMarker.data.length = 35 := by decide
  simp only [String.data_append, List.length_append, List.length_take,
    List.length_replicate, hmark] at hlen
  omega

namespace Agentloop

/-! ## `execFileRead` (`internal/agentloop/executor.go`)

The tool reads the file (path validation and the `os.Stat` existence check
are upstream; `content` here is the file's bytes, ASCII, as a character
list), rejects files over 10 MB, and renders the content with 1-based line
numbers: with a `start_line`/`end_line` range it splits on `"\n"` with
`strings.Split` and renders the requested window (returned *without* any
output cap); without a range it scans lines with `bufio.Scanner` and caps the
result at 100 KB with a literal marker.  (The scanner's 64 KB default token
limit, which silently ends the scan on longer lines, is not modelled; it can
only shorten the un-capped rendering and no theorem below depends on it.) -/

/-- `strings.Split content "\n"` over characters (`acc` holds the current
field, reversed). -/
def splitChar : List Char → List Char → List (List Char)
  | [], acc => [acc.reverse]
  | c :: cs, acc =>
    if c = '\n' then acc.reverse :: splitChar cs []
    else splitChar cs (c :: acc)

/-- `bufio.Scanner` line tokens: like `strings.Split`, except that no empty
final token is produced (a trailing newline or empty input yields nothing
after the last line). -/
def scanLines (content : List Char) : List (List Char) :=
  let ls := splitChar content []
  if ls.getLast? = some [] then ls.dropLast else ls

/-- The `fmt.Fprintf(&sb, "%d: %s\n", i, line)` rendering loop, numbering
from `i`. -/
def renderNumberedFrom : Nat → List (List Char) → List Char
  | _, [] => []
  | i, l :: ls =>
    (toString i).data ++ ": ".data ++ l ++ ['\n'] ++ renderNumberedFrom (i + 1) ls

/-- `MaxFileReadSize` (10 MB). -/
def maxFileReadSize : Nat := 10 * 1024 * 1024

/-- `MaxOutputSize` (100 KB). -/
def maxOutputSize : Nat := 100 * 1024

/-- The literal output truncation marker. -/
def outputTruncMarker : List Char := "\n... (truncated)".data

/-- The error returns of `execFileRead` after argument/path validation. -/
inductive FileReadErr
  | fileTooLarge
  | startBeyondEnd
deriving DecidableEq

/-- `execFileRead`: size check; range branch (`start_line > 0 or
end_line > 0`) — clamp `start` up to 1 and `end` into range, error when
`start` exceeds the line count, render the window, **no output cap**; full
branch — render all scanner lines and cap at `MaxOutputSize` with the
marker.  `startLine`/`endLine` are Go `int`s, hence `Int`. -/
def execFileRead (content : List Char) (startLine endLine : Int) :
    Except FileReadErr (List Char) :=
  if (maxFileReadSize : Int) < content.length then .error .fileTooLarge
  else if 0 < startLine ∨ 0 < endLine then
    let lines := splitChar content []
    let start : Int := if startLine < 1 then 1 else startLine
    let stop : Int :=
      if endLine < 1 ∨ (lines.length : Int) < endLine then (lines.length : Int)
      else endLine
    if (lines.length : Int) < start then .error .startBeyondEnd
    else
      .ok (renderNumberedFrom start.toNat
        ((lines.drop (start.toNat - 1)).take (stop - start + 1).toNat))
  else
    let res := renderNumberedFrom 1 (scanLines content)
    if maxOutputSize < res.length then
      .ok (res.take maxOutputSize ++ outputTruncMarker)
    else .ok res

/-- Splitting a newline-free field: everything stays in one field. -/
theorem splitChar_no_newline (l : List Char) :
    ∀ acc, '\n' ∉ l → splitChar l acc = [acc.reverse ++ l] := by
  induction l with
  | nil => intro acc _; simp [splitChar]
  | cons c cs ih =>
    intro acc h
    rw [splitChar, if_neg (fun hc => h (by rw [hc]; exact List.mem_cons_self _ _)),
      ih _ (fun hm => h (List.mem_cons_of_mem _ hm))]
    simp

/-- Reading line 1 of a newline-free file in range mode returns the whole
line, numbered, with no output cap. -/
theorem execFileRead_single_line (l : List Char) (hnl : '\n' ∉ l)
    (hlen : l.length ≤ maxFileReadSize) :
    execFileRead l 1 0 = .ok ("1: ".data ++ (l ++ ['\n'])) := by
  have hsplit : splitChar l [] = [l] := by
    rw [splitChar_no_newline l [] hnl]
    simp
  have hsize : ¬ ((maxFileReadSize : Int) < (l.length : Int)) := by
    omega
  unfold execFileRead
  rw [if_neg hsize, if_pos (Or.inl (by norm_num)), hsplit]
  simp only [List.length_singleton, Nat.cast_one]
  rw [if_neg (by norm_num), if_pos (Or.inl (by norm_num)),
    if_neg (by norm_num)]
  have hone : (toString (1 : Nat)).data ++ ": ".data = "1: ".data := by decide
  simp [renderNumberedFrom, hone]

end Agentloop

/-- C9 (amended): a `file_read` invocation *without* a line range returns at
most 100 KB plus the literal truncation marker, and any full rendering over
the cap is truncated and suffixed with the marker; a ranged invocation is
returned uncapped (see the counterexample). -/
theorem execFileRead_full_read_capped (content : List Char)
    (startLine endLine : Int) (h1 : startLine ≤ 0) (h2 : endLine ≤ 0) :
    ∀ out, Agentloop.execFileRead content startLine endLine = .ok out →
      out.length ≤ Agentloop.maxOutputSize +
        Agentloop.outputTruncMarker.length ∧
      (Agentloop.maxOutputSize <
          (Agentloop.renderNumberedFrom 1 (Agentloop.scanLines content)).length →
        out = (Agentloop.renderNumberedFrom 1
            (Agentloop.scanLines content)).take Agentloop.maxOutputSize ++
          Agentloop.outputTruncMarker) := by
  intro out hout
  unfold Agentloop.execFileRead at hout
  by_cases hsize : (Agentloop.maxFileReadSize : Int) < (content.length : Int)
  · rw [if_pos hsize] at hout
    exact absurd hout (by simp)
  · rw [if_neg hsize, if_neg (by omega)] at hout
    by_cases hcap : Agentloop.maxOutputSize <
        (Agentloop.renderNumberedFrom 1 (Agentloop.scanLines content)).length
    · rw [if_pos hcap, Except.ok.injEq] at hout
      subst hout
      refine ⟨?_, fun _ => rfl⟩
      rw [List.length_append, List.length_take]
      omega
    · rw [if_neg hcap, Except.ok.injEq] at hout
      subst hout
      exact ⟨by omega, fun hc => absurd hc hcap⟩

/-- Witness for `execFileRead_full_read_capped` on the two-byte file
`"hi"`. -/
theorem execFileRead_full_read_capped_witness :
    ("1: hi\n".data : List Char).length ≤ Agentloop.maxOutputSize +
      Agentloop.outputTruncMarker.length :=
  (execFileRead_full_read_capped "hi".data 0 0 (by norm_num) (by norm_num)
    "1: hi\n".data (by decide)).1

/-- C9 (counterexample): a *ranged* `file_read` is not capped — reading line
1 of a single-line 102 500-byte file returns 102 504 bytes, strictly more
than 100 KB plus the truncation marker. -/
theorem execFileRead_range_uncapped :
    Agentloop.execFileRead (List.replicate 102500 'a') 1 0 =
      .ok ("1: ".data ++ (List.replicate 102500 'a' ++ ['\n'])) ∧
    Agentloop.maxOutputSize + Agentloop.outputTruncMarker.length <
      ("1: ".data ++ (List.replicate 102500 'a' ++ ['\n'])).length := by
  constructor
  · exact Agentloop.execFileRead_single_line _
      (fun hm => by simpa using (List.eq_of_mem_replicate hm))
      (by rw [List.length_replicate]; norm_num [Agentloop.maxFileReadSize])
  · simp only [List.length_append, List.length_replicate]
    norm_num [Agentloop.maxOutputSize, Agentloop.outputTruncMarker]

namespace Agentloop

/-! ## `safePath` (`internal/agentloop/executor.go`)

Path model: an **absolute** path is its list of components (the leading `/`
is implicit); the input path arrives pre-split into components together with
its `filepath.IsAbs` flag, so the string-splitting of `/` is outside the
model.  `filepath`'s pure operations become:

* `Clean` on an absolute path — `cleanAbs`: drop empty and `"."` components,
  let `".."` pop the previous component (at the root, `/..` is `/`).
  `filepath.Join(workDir, path)` is `Clean` of the concatenation, so for a
  relative argument the candidate is `cleanAbs (workDir ++ path)`.
* `Dir` on an absolute path — drop the last component (the parent of the
  root is the root); `Base` — the last component.
* `Rel(base, targ)` for two cleaned absolute paths — strip the longest
  common component prefix, then one `".."` per remaining base component
  followed by the remaining target components (`goRel`); with both paths
  absolute it never errors, so the code's reject-on-`Rel`-error branch is
  unreachable in the model.
* `strings.HasPrefix(rel, "..")` on the rendered relative path (components
  joined by `/`, `"."` for the empty one) holds iff the *first component*
  has `".."` as a string prefix: a leading `".."` component renders as
  `"../..."` and a component such as `"..d"` renders as `"..d/..."`, both
  matching, while `"."` and anything else do not (`relHasDotDotLead`).

`filepath.EvalSymlinks` is the filesystem's symlink resolution — an external
effect, passed in as `FS.evalSymlinks` returning `none` exactly when the Go
call errors (target missing). -/

/-- `filepath.Clean` on an absolute path given by components. -/
def cleanAbs (comps : List String) : List String :=
  comps.foldl
    (fun acc c =>
      if c = "" ∨ c = "." then acc
      else if c = ".." then acc.dropLast
      else acc ++ [c])
    []

/-- The filesystem's symlink resolution (`filepath.EvalSymlinks`); `none`
models the error return (e.g. the target does not exist). -/
structure FS where
  evalSymlinks : List String → Option (List String)

/-- The candidate after `safePath`'s symlink-resolution step: resolve the
candidate; on failure resolve the parent and re-attach the base name; if the
parent fails too, keep the literal cleaned path. -/
def resolveCandidate (fs : FS) (absPath : List String) : List String :=
  match fs.evalSymlinks absPath with
  | some r => r
  | none =>
    match fs.evalSymlinks absPath.dropLast with
    | some rp =>
      match absPath.getLast? with
      | some b => rp ++ [b]
      | none => rp
    | none => absPath

/-- The worktree root after symlink resolution, falling back to the raw
worktree on error. -/
def resolveWorkDir (fs : FS) (workDir : List String) : List String :=
  (fs.evalSymlinks workDir).getD workDir

/-- Length of the longest common component prefix. -/
def commonLen : List String → List String → Nat
  | a :: as, b :: bs => if a = b then commonLen as bs + 1 else 0
  | _, _ => 0

/-- `filepath.Rel base targ` for cleaned absolute component paths. -/
def goRel (base targ : List String) : List String :=
  List.replicate (base.length - commonLen base targ) ".." ++
    targ.drop (commonLen base targ)

/-- `strings.HasPrefix(rel, "..")` on the rendered relative path — see the
section comment for why this is a string prefix test on the first
component. -/
def relHasDotDotLead (rel : List String) : Bool :=
  match rel with
  | [] => false
  | c :: _ => "..".data.isPrefixOf c.data

/-- `Executor.safePath`: make the candidate absolute and clean it, resolve
symlinks on candidate and worktree, compute the relative path, and reject
(`none`) iff it `HasPrefix ".."`; on acceptance return the cleaned (not the
resolved) candidate path. -/
def safePath (fs : FS) (workDir : List String) (isAbs : Bool)
    (path : List String) : Option (List String) :=
  let absPath := if isAbs then cleanAbs path else cleanAbs (workDir ++ path)
  let resolved := resolveCandidate fs absPath
  let resolvedWorkDir := resolveWorkDir fs workDir
  let rel := goRel resolvedWorkDir resolved
  if relHasDotDotLead rel then none else some absPath

/-- The common prefix is never longer than either side. -/
theorem commonLen_le_left : ∀ a b : List String, commonLen a b ≤ a.length := by
  intro a
  induction a with
  | nil => intro b; cases b <;> simp [commonLen]
  | cons x xs ih =>
    intro b
    cases b with
    | nil => simp [commonLen]
    | cons y ys =>
      rw [commonLen]
      split
      · simpa using ih ys
      · simp

/-- A full-length common prefix is a prefix. -/
theorem commonLen_eq_length_imp (a : List String) :
    ∀ b, commonLen a b = a.length → a <+: b := by
  induction a with
  | nil => intro b _; exact List.nil_prefix
  | cons x xs ih =>
    intro b h
    cases b with
    | nil => simp [commonLen] at h
    | cons y ys =>
      rw [commonLen] at h
      by_cases hxy : x = y
      · rw [if_pos hxy] at h
        rw [List.length_cons, Nat.add_right_cancel_iff] at h
        subst hxy
        obtain ⟨t, ht⟩ := ih ys h
        exact ⟨t, by rw [List.cons_append, ht]⟩
      · rw [if_neg hxy] at h
        simp at h

end Agentloop

/-- C1 (amended): `safePath` rejects the candidate iff its path relative to
the symlink-resolved worktree (with the fallbacks the claim lists) is
non-empty and its **first component has ".." as a string prefix** — this
rejects every path beginning with a true parent-directory component, but
also e.g. a first component merely *named* `"..d"`; and, as the claim's
second half states, every accepted path is the cleaned candidate and its
resolution lies within the resolved worktree (component-prefix
containment). -/
theorem safePath_reject_iff_and_containment (fs : Agentloop.FS)
    (workDir : List String) (isAbs : Bool) (path : List String) :
    (Agentloop.safePath fs workDir isAbs path = none ↔
      ∃ c rest, Agentloop.goRel (Agentloop.resolveWorkDir fs workDir)
          (Agentloop.resolveCandidate fs
            (if isAbs then Agentloop.cleanAbs path
             else Agentloop.cleanAbs (workDir ++ path))) = c :: rest ∧
        "..".data.isPrefixOf c.data = true) ∧
    (∀ out, Agentloop.safePath fs workDir isAbs path = some out →
      out = (if isAbs then Agentloop.cleanAbs path
             else Agentloop.cleanAbs (workDir ++ path)) ∧
      Agentloop.resolveWorkDir fs workDir <+:
        Agentloop.resolveCandidate fs out) := by
  set absPath := if isAbs then Agentloop.cleanAbs path
    else Agentloop.cleanAbs (workDir ++ path) with habs
  set base := Agentloop.resolveWorkDir fs workDir with hbase
  set targ := Agentloop.resolveCandidate fs absPath with htarg
  have hsafe : Agentloop.safePath fs workDir isAbs path =
      if Agentloop.relHasDotDotLead (Agentloop.goRel base targ) then none
      else some absPath := rfl
  constructor
  · rw [hsafe]
    cases hrel : Agentloop.goRel base targ with
    | nil =>
      rw [Agentloop.relHasDotDotLead]
      simp
    | cons c rest =>
      rw [Agentloop.relHasDotDotLead]
      by_cases hpc : "..".data.isPrefixOf c.data = true
      · rw [hpc, if_pos rfl]
        exact iff_of_true rfl ⟨c, rest, rfl, hpc⟩
      · rw [Bool.not_eq_true] at hpc
        rw [hpc]
        simp only [Bool.false_eq_true, if_false]
        constructor
        · intro h
          exact absurd h (by simp)
        · rintro ⟨c', rest', heq, hp⟩
          rw [List.cons.injEq] at heq
          rw [hrel] at hsafe
          exact absurd (heq.1 ▸ hp) (by rw [hpc]; simp)
  · intro out hout
    rw [hsafe] at hout
    by_cases hl : Agentloop.relHasDotDotLead (Agentloop.goRel base targ) = true
    · rw [if_pos hl] at hout
      exact absurd hout (by simp)
    · rw [Bool.not_eq_true] at hl
      rw [hl] at hout
      simp only [Bool.false_eq_true, if_false, Option.some.injEq] at hout
      subst hout
      refine ⟨rfl, ?_⟩
      have hc := Agentloop.commonLen_le_left base targ
      by_cases hu : base.length - Agentloop.commonLen base targ = 0
      · have hceq : Agentloop.commonLen base targ = base.length := by omega
        exact Agentloop.commonLen_eq_length_imp base targ hceq
      · exfalso
        obtain ⟨k, hk⟩ : ∃ k, base.length - Agentloop.commonLen base targ =
            k + 1 := ⟨_, (Nat.succ_pred_eq_of_pos (Nat.pos_of_ne_zero hu)).symm⟩
        have hform : Agentloop.goRel base targ =
            ".." :: (List.replicate k ".." ++
              targ.drop (Agentloop.commonLen base targ)) := by
          rw [Agentloop.goRel, hk, List.replicate_succ, List.cons_append]
        rw [hform, Agentloop.relHasDotDotLead] at hl
        exact absurd hl (by decide)

/-- Witness for `safePath_reject_iff_and_containment`: with no symlinks, the
relative argument `sub/f.txt` under worktree `/w` is accepted as
`/w/sub/f.txt`, which lies within the worktree. -/
theorem safePath_reject_iff_and_containment_witness :
    (["w", "sub", "f.txt"] : List String) =
      Agentloop.cleanAbs (["w"] ++ ["sub", "f.txt"]) ∧
    Agentloop.resolveWorkDir ⟨fun p => some p⟩ ["w"] <+:
      Agentloop.resolveCandidate ⟨fun p => some p⟩ ["w", "sub", "f.txt"] := by
  have h := (safePath_reject_iff_and_containment ⟨fun p => some p⟩ ["w"]
    false ["sub", "f.txt"]).2 ["w", "sub", "f.txt"] (by decide)
  exact ⟨by simpa using h.1, h.2⟩

/-- C1 (counterexample): the claimed iff fails — with no symlinks at all and
worktree `/w`, the argument `..d` (a first component *named* `"..d"`, not a
parent-directory component) is rejected by `safePath`, although its relative
path does not begin with a parent-directory component (and `/w/..d` lies
within `/w`). -/
theorem safePath_reject_iff_counterexample :
    Agentloop.safePath ⟨fun p => some p⟩ ["w"] false ["..d"] = none ∧
    (Agentloop.goRel (Agentloop.resolveWorkDir ⟨fun p => some p⟩ ["w"])
        (Agentloop.resolveCandidate ⟨fun p => some p⟩
          (Agentloop.cleanAbs (["w"] ++ ["..d"])))).head? ≠ some ".." ∧
    Agentloop.resolveWorkDir ⟨fun p => some p⟩ ["w"] <+:
      Agentloop.resolveCandidate ⟨fun p => some p⟩
        (Agentloop.cleanAbs (["w"] ++ ["..d"])) := by
  refine ⟨by decide, by decide, ?_⟩
  exact ⟨["..d"], by decide⟩

end Gastown
